import Mathlib

/- Verification development for ctlearn's `image_mapping.py` (`ImageMapper`).

   The mapping-table pipeline is embedded shallowly:
   * camera constants (`num_pixels`, initial `image_shapes`) become total
     functions on an inductive `Cam` type;
   * the dense 3-d weight tensor `mapping_matrix3d` becomes a `Tab3`
     (tracked dimensions plus a value function into `ℚ`);
   * the post-processing steps of `generate_table` (row cut, mask,
     rotation, normalization, padding trim, sparsification) become `Tab3`
     transformers composed in `generateTable`;
   * the strategy-specific raw weight assignment and the external
     `cv2.warpAffine` resampling are parameters of `generateTable`
     (the former is produced by the five strategy branches, the latter is
     an external collaborator; both leave the tracked dimensions fixed,
     as the source allocates the arrays with explicit shapes);
   * machine floats are modelled as exact rationals, except where a claim
     is about IEEE non-finite results, where the small `EV` type records
     finite/NaN/±infinity outcomes of division. -/

inductive Cam where
  | LSTCam | FlashCam | NectarCam | SCTCam | DigiCam | CHEC | ASTRICam
  | VERITAS | MAGICCam | FACT | HESSI | HESSII
  deriving DecidableEq, Repr

-- ImageMapper.num_pixels (source lines 37-50)
def numPixels : Cam → Nat
  | .LSTCam => 1855
  | .FlashCam => 1764
  | .NectarCam => 1855
  | .SCTCam => 11328
  | .DigiCam => 1296
  | .CHEC => 2048
  | .ASTRICam => 2368
  | .VERITAS => 499
  | .MAGICCam => 1039
  | .FACT => 1440
  | .HESSI => 960
  | .HESSII => 2048

-- initial self.image_shapes first components (source lines 75-88; shapes are square)
def imageShape0 : Cam → Nat
  | .LSTCam => 110
  | .FlashCam => 112
  | .NectarCam => 110
  | .SCTCam => 120
  | .DigiCam => 96
  | .CHEC => 48
  | .ASTRICam => 56
  | .VERITAS => 54
  | .MAGICCam => 78
  | .FACT => 90
  | .HESSI => 72
  | .HESSII => 104

-- the camera types singled out at source lines 132, 204, 235, 315, 519
def squareCams : List Cam := [.ASTRICam, .CHEC, .SCTCam]

-- the camera types rotated back at source line 512
def rotCams : List Cam := [.LSTCam, .NectarCam, .MAGICCam]

-- the five implemented strategies (source line 119)
def validAlgos : List String :=
  ["oversampling", "rebinning", "nearest_interpolation", "bilinear_interpolation",
   "bicubic_interpolation"]

-- the two strategies eligible for mask interpolation (source line 509)
def interpAlgos : List String := ["bilinear_interpolation", "bicubic_interpolation"]

-- self.default_pad (source lines 128-130)
def defaultPad (algo : String) : Nat :=
  if algo = "bicubic_interpolation" then 3 else 2

-- image shape before the default-pad extension: for non-oversampling strategies the
-- interpolation_image_shape override is installed (source lines 122-123)
def baseShape (cam : Cam) (algo : String) (interpS : Nat) : Nat :=
  if algo ≠ "oversampling" then interpS else imageShape0 cam

-- image shape after the default-pad extension (source lines 132-143)
def initDim (cam : Cam) (algo : String) (interpS : Nat) : Nat :=
  if algo ≠ "oversampling" ∨ cam ∈ squareCams then
    baseShape cam algo interpS + defaultPad algo * 2
  else
    baseShape cam algo interpS + defaultPad algo * 4

-- a dense 3-d tensor `mapping_matrix3d` with tracked dimensions
@[ext]
structure Tab3 where
  rows : Nat
  d1 : Nat
  d2 : Nat
  val : Nat → Nat → Nat → ℚ

-- the csr_matrix produced at source lines 538-540
@[ext]
structure SparseMat where
  rows : Nat
  cols : Nat
  val : Nat → Nat → ℚ

-- np.sum(mapping_matrix3d[1:]) (source line 841): total weight on real-pixel rows
def tabSum1 (t : Tab3) : ℚ :=
  ∑ r ∈ Finset.Ico 1 t.rows, ∑ y ∈ Finset.range t.d1, ∑ x ∈ Finset.range t.d2, t.val r y x

-- ImageMapper.normalization (source lines 840-844): every entry of rows 1.. is
-- divided in place by sum(rows 1..) / num_pixels
def normalization (t : Tab3) (nP : Nat) : Tab3 :=
  let f := tabSum1 t / (nP : ℚ)
  ⟨t.rows, t.d1, t.d2, fun r y x =>
    if 1 ≤ r ∧ r < t.rows ∧ y < t.d1 ∧ x < t.d2 then t.val r y x / f else t.val r y x⟩

-- the mask image built at source lines 847-851: entry 1 at (j+pad, i+pad) whenever
-- nn_index[j][i] is a real pixel, 0 elsewhere
def maskVal (nn : Nat → Nat → Nat) (n nP pad : Nat) (y x : Nat) : ℚ :=
  if pad ≤ y ∧ pad ≤ x ∧ y - pad < n ∧ x - pad < n ∧ nn (y - pad) (x - pad) < nP then 1
  else 0

-- ImageMapper.mask_interpolation (source lines 846-854): rows 1.. are multiplied
-- pointwise by the mask
def maskInterpolation (t : Tab3) (nn : Nat → Nat → Nat) (n nP pad : Nat) : Tab3 :=
  ⟨t.rows, t.d1, t.d2, fun r y x =>
    if 1 ≤ r ∧ r < t.rows then t.val r y x * maskVal nn n nP pad y x else t.val r y x⟩

-- the padding trim at source lines 518-536: keep the centered window, dropping k
-- cells on every side (k = default_pad in the first branch, 2*default_pad in the
-- second); the slice [k : d - k) of a length-d axis has length d - 2*k
def trimBy (k : Nat) (t : Tab3) : Tab3 :=
  ⟨t.rows, t.d1 - 2 * k, t.d2 - 2 * k, fun r y x => t.val r (y + k) (x + k)⟩

-- the row-major reshape to (rows, d1*d2) fed into csr_matrix (source lines 538-540)
def sparsify (t : Tab3) : SparseMat :=
  ⟨t.rows, t.d1 * t.d2, fun r c => t.val r (c / t.d2) (c % t.d2)⟩

-- the weight written per target cell in the oversampling / nearest branch
-- (source lines 204-207)
def pixelWeight (cam : Cam) (algo : String) : ℚ :=
  if algo = "oversampling" ∧ cam ∉ squareCams then 1 / 4 else 1

-- the raw assignment of the oversampling / nearest branch (source lines 208-211):
-- cell (y_grid+pad, x_grid+pad) carries weight w in row nn[y_grid][x_grid] + 1
def oversamplingRaw (nn : Nat → Nat → Nat) (od pad : Nat) (w : ℚ) : Nat → Nat → Nat → ℚ :=
  fun r y x =>
    if pad ≤ y ∧ pad ≤ x ∧ y < od + pad ∧ x < od + pad ∧ r = nn (y - pad) (x - pad) + 1 then w
    else 0

-- the flattened grid_size_factor × grid_size_factor block of nn_index feeding one
-- native-resolution cell of the rebinning branch (source line 223); row-major
def subBlock (nn : Nat → Nat → Nat) (g yc xc : Nat) : List Nat :=
  (List.range (g * g)).map fun i => nn (yc * g + i / g) (xc * g + i % g)

-- Counter-based weight of the rebinning branch (source line 225): the occurrence
-- count of a source index divided by the total count of the block
def rebinWeight (l : List Nat) (k : Nat) : ℚ := (l.count k : ℚ) / (l.length : ℚ)

-- the value written into row r of one native cell's column by source lines 226-227:
-- row k+1 receives the weight of source index k for every contributing k
def rebinCellRow (l : List Nat) (r : Nat) : ℚ :=
  if 1 ≤ r ∧ (r - 1) ∈ l then rebinWeight l (r - 1) else 0

-- ImageMapper.generate_table (source lines 182-542).  The strategy-specific raw
-- assignment (lines 199-505, a tensor of shape (num_pixels + vpix + 1, od + 2*pad,
-- od + 2*pad) where vpix is the number of virtual pixels) and the external
-- cv2.warpAffine resampling of line 513 (which keeps the explicitly passed
-- dimensions) are parameters.
def generateTable (cam : Cam) (algo : String) (pad interpS vpix : Nat)
    (raw : Nat → Nat → Nat → ℚ) (rot : (Nat → Nat → Nat → ℚ) → Nat → Nat → Nat → ℚ)
    (nn : Nat → Nat → Nat) (maskOn : Bool) : SparseMat :=
  let d := defaultPad algo
  let od := initDim cam algo interpS
  -- line 507: mapping_matrix3d = mapping_matrix3d[:num_pixels+1]
  let t1 : Tab3 :=
    ⟨min (numPixels cam + vpix + 1) (numPixels cam + 1), od + pad * 2, od + pad * 2, raw⟩
  -- lines 509-510
  let t2 := if maskOn ∧ algo ∈ interpAlgos then
      maskInterpolation t1 nn od (numPixels cam) pad
    else t1
  -- lines 512-513: external affine resampling, row count and spatial shape preserved
  let t3 := if cam ∈ rotCams then { t2 with val := rot t2.val } else t2
  -- lines 515-516
  let t4 := if algo ∉ ["oversampling", "nearest_interpolation"] then
      normalization t3 (numPixels cam)
    else t3
  -- lines 518-536
  let t5 := if pad + d ≠ 0 then
      (if algo ≠ "oversampling" ∨ cam ∈ squareCams then trimBy d t4 else trimBy (2 * d) t4)
    else t4
  -- lines 538-540
  sparsify t5

-- the final image shape recorded in self.image_shapes by generate_table
-- (source lines 523-527 and 532-536).  The source computes od + (pad - default_pad)*2
-- in signed arithmetic; od ≥ 2*default_pad in that branch, so the truncated form
-- od + pad*2 - d*2 is the same number.
def imageShapeFinal (cam : Cam) (algo : String) (pad interpS : Nat) : Nat :=
  let d := defaultPad algo
  let od := initDim cam algo interpS
  if pad + d ≠ 0 then
    (if algo ≠ "oversampling" ∨ cam ∈ squareCams then od + pad * 2 - d * 2
     else od + pad * 2 - d * 4)
  else od

-- the pixel-value argument of map_image: a 2-d array (num rows, channel count)
structure PixMat where
  rows : Nat
  cols : Nat
  val : Nat → Nat → ℚ

-- the output of map_image: a (d1, d2, channels) raster
structure Raster where
  d1 : Nat
  d2 : Nat
  ch : Nat
  val : Nat → Nat → Nat → ℚ

-- ImageMapper.map_image (source lines 155-180): per channel, the pixel vector is
-- multiplied against the cached table and reshaped to (h, w, 1); the channels are
-- stacked.  numpy/scipy define the product only when the vector length equals the
-- table's row count, and the reshape only when the column count is h*w; otherwise
-- the call raises and no raster is produced (modelled as `none`).
def mapImage (pix : PixMat) (tab : SparseMat) (h w : Nat) : Option Raster :=
  if pix.rows = tab.rows ∧ tab.cols = h * w then
    some ⟨h, w, pix.cols, fun y x c =>
      ∑ r ∈ Finset.range tab.rows, pix.val r c * tab.val r (y * w + x)⟩
  else none

-- the per-camera-type construction loop of ImageMapper.__init__ (source lines
-- 115-152): each camera type's strategy name is validated (line 119) before its
-- table is generated and stored (line 152); an invalid name raises, discarding
-- the partially built state.  Table generation is abstracted by `mk`.
def initTables (cams : List Cam) (algo : Cam → String) (mk : Cam → SparseMat)
    (acc : List (Cam × SparseMat)) : Except String (List (Cam × SparseMat)) :=
  match cams with
  | [] => .ok acc
  | c :: rest =>
      if algo c ∉ validAlgos then
        .error ("Hex conversion algorithm " ++ algo c ++ " is not implemented.")
      else
        initTables rest algo mk (acc ++ [(c, mk c)])

-- ImageMapper.get_weights, three-point branch (source lines 618-624)
def getWeights3 (p1 p2 p3 t : ℚ × ℚ) : ℚ × ℚ × ℚ :=
  let divisor := (p2.2 - p3.2) * (p1.1 - p3.1) + (p3.1 - p2.1) * (p1.2 - p3.2)
  let w0 := ((p2.2 - p3.2) * (t.1 - p3.1) + (p3.1 - p2.1) * (t.2 - p3.2)) / divisor
  let w1 := ((p3.2 - p1.2) * (t.1 - p3.1) + (p1.1 - p3.1) * (t.2 - p3.2)) / divisor
  (w0, w1, 1 - w0 - w1)

-- ImageMapper.get_weights, four-point branch (source lines 654-661); exactly as in
-- the source, only the first point p[i][0] and the fourth point p[i][3] are read
def getWeights4 (q0 q1 q2 q3 t : ℚ × ℚ) : ℚ × ℚ × ℚ × ℚ :=
  let divisor := (q3.1 - q0.1) * (q3.2 - q0.2)
  ((q3.1 - t.1) * (q3.2 - t.2) / divisor,
   (q3.1 - t.1) * (t.2 - q0.2) / divisor,
   (t.1 - q0.1) * (q3.2 - t.2) / divisor,
   (t.1 - q0.1) * (t.2 - q0.2) / divisor)

-- the spec's closed-form barycentric weights over corners (x1,y1),(x2,y2),(x3,y3)
def barySpec (x1 y1 x2 y2 x3 y3 x y : ℚ) : ℚ × ℚ × ℚ :=
  let dd := (y2 - y3) * (x1 - x3) + (x3 - x2) * (y1 - y3)
  let w1 := ((y2 - y3) * (x - x3) + (x3 - x2) * (y - y3)) / dd
  let w2 := ((y3 - y1) * (x - x3) + (x1 - x3) * (y - y3)) / dd
  (w1, w2, 1 - w1 - w2)

-- the spec's closed-form bilinear weights over the axis-aligned rectangle with
-- lower-left (x1,y1) and upper-right (x2,y2), in order ll, ul, lr, ur
def bilinSpec (x1 y1 x2 y2 x y : ℚ) : ℚ × ℚ × ℚ × ℚ :=
  let a := (x2 - x1) * (y2 - y1)
  ((x2 - x) * (y2 - y) / a, (x2 - x) * (y - y1) / a,
   (x - x1) * (y2 - y) / a, (x - x1) * (y - y1) / a)

-- IEEE-style outcome of a float division: finite value, NaN, or a signed infinity
inductive EV where
  | fin (q : ℚ)
  | nan
  | pinf
  | ninf
  deriving DecidableEq, Repr

def EV.isFinite : EV → Bool
  | .fin _ => true
  | _ => false

-- float division semantics for the cases arising in normalization: a zero divisor
-- yields NaN (for a zero numerator) or a signed infinity, never an exception
def divF (x d : ℚ) : EV :=
  if d ≠ 0 then .fin (x / d)
  else if x = 0 then .nan
  else if 0 < x then .pinf
  else .ninf

-- ImageMapper.normalization with the entry division tracked under float semantics:
-- the same in-place division as `normalization`, recording non-finite outcomes
def normalizationF (t : Tab3) (nP : Nat) : Nat → Nat → Nat → EV :=
  let f := tabSum1 t / (nP : ℚ)
  fun r y x =>
    if 1 ≤ r ∧ r < t.rows ∧ y < t.d1 ∧ x < t.d2 then divF (t.val r y x) f
    else .fin (t.val r y x)

-- ### Shared lemmas about the pipeline

@[simp] lemma sparsify_rows (t : Tab3) : (sparsify t).rows = t.rows := rfl

@[simp] lemma sparsify_cols (t : Tab3) : (sparsify t).cols = t.d1 * t.d2 := rfl

@[simp] lemma trimBy_rows (k : Nat) (t : Tab3) : (trimBy k t).rows = t.rows := rfl

@[simp] lemma trimBy_d1 (k : Nat) (t : Tab3) : (trimBy k t).d1 = t.d1 - 2 * k := rfl

@[simp] lemma trimBy_d2 (k : Nat) (t : Tab3) : (trimBy k t).d2 = t.d2 - 2 * k := rfl

@[simp] lemma normalization_rows (t : Tab3) (nP : Nat) : (normalization t nP).rows = t.rows := rfl

@[simp] lemma normalization_d1 (t : Tab3) (nP : Nat) : (normalization t nP).d1 = t.d1 := rfl

@[simp] lemma normalization_d2 (t : Tab3) (nP : Nat) : (normalization t nP).d2 = t.d2 := rfl

@[simp] lemma maskInterpolation_rows (t : Tab3) (nn : Nat → Nat → Nat) (n nP pad : Nat) :
    (maskInterpolation t nn n nP pad).rows = t.rows := rfl

@[simp] lemma maskInterpolation_d1 (t : Tab3) (nn : Nat → Nat → Nat) (n nP pad : Nat) :
    (maskInterpolation t nn n nP pad).d1 = t.d1 := rfl

@[simp] lemma maskInterpolation_d2 (t : Tab3) (nn : Nat → Nat → Nat) (n nP pad : Nat) :
    (maskInterpolation t nn n nP pad).d2 = t.d2 := rfl

lemma generateTable_rows (cam : Cam) (algo : String) (pad s v : Nat)
    (raw : Nat → Nat → Nat → ℚ) (rot : (Nat → Nat → Nat → ℚ) → Nat → Nat → Nat → ℚ)
    (nn : Nat → Nat → Nat) (m : Bool) :
    (generateTable cam algo pad s v raw rot nn m).rows = numPixels cam + 1 := by
  simp only [generateTable, sparsify_rows, apply_ite Tab3.rows, trimBy_rows,
    normalization_rows, maskInterpolation_rows, ite_self]
  omega

lemma generateTable_cols (cam : Cam) (algo : String) (pad s v : Nat)
    (raw : Nat → Nat → Nat → ℚ) (rot : (Nat → Nat → Nat → ℚ) → Nat → Nat → Nat → ℚ)
    (nn : Nat → Nat → Nat) (m : Bool) :
    (generateTable cam algo pad s v raw rot nn m).cols =
      imageShapeFinal cam algo pad s * imageShapeFinal cam algo pad s := by
  simp only [generateTable, imageShapeFinal, sparsify_cols, apply_ite Tab3.d1,
    apply_ite Tab3.d2, trimBy_d1, trimBy_d2, normalization_d1, normalization_d2,
    maskInterpolation_d1, maskInterpolation_d2, ite_self]
  split_ifs <;> (first | rfl | (congr 1 <;> omega))

-- every in-range entry of rows 1.. is scaled by the factor, so the total mass
-- after normalization is the old mass divided by the factor
lemma tabSum1_normalization (t : Tab3) (nP : Nat) :
    tabSum1 (normalization t nP) = tabSum1 t / (tabSum1 t / (nP : ℚ)) := by
  unfold tabSum1
  simp only [normalization_rows, normalization_d1, normalization_d2]
  rw [Finset.sum_div]
  apply Finset.sum_congr rfl
  intro r hr
  rw [Finset.sum_div]
  apply Finset.sum_congr rfl
  intro y hy
  rw [Finset.sum_div]
  apply Finset.sum_congr rfl
  intro x hx
  have hr' := Finset.mem_Ico.mp hr
  simp only [normalization]
  rw [if_pos ⟨hr'.1, hr'.2, Finset.mem_range.mp hy, Finset.mem_range.mp hx⟩]
  rfl

-- if any requested camera type carries a strategy name outside the implemented
-- five, the construction loop ends in the raised error, whatever the accumulator
lemma initTables_err (cams : List Cam) (algo : Cam → String) (mk : Cam → SparseMat)
    (acc : List (Cam × SparseMat)) (c : Cam) (hc : c ∈ cams)
    (hbad : algo c ∉ validAlgos) :
    ∃ e, initTables cams algo mk acc = .error e := by
  induction cams generalizing acc with
  | nil => cases hc
  | cons c0 rest ih =>
      rw [initTables]
      by_cases h0 : algo c0 ∉ validAlgos
      · exact ⟨_, by rw [if_pos h0]⟩
      · rw [if_neg h0]
        rcases List.mem_cons.mp hc with rfl | hc'
        · exact absurd hbad h0
        · exact ih _ hc'

-- the occurrence-fraction weights of one rebinning cell sum to 1 over any row
-- range covering all contributing rows
lemma rebinCellRow_total (l : List Nat) (rr : Nat) (hne : l ≠ [])
    (hrr : ∀ k ∈ l, k + 1 < rr) :
    ∑ r ∈ Finset.range rr, rebinCellRow l r = 1 := by
  obtain ⟨k0, hk0⟩ : ∃ k, k ∈ l := by
    cases l with
    | nil => exact absurd rfl hne
    | cons a l' => exact ⟨a, List.mem_cons_self a l'⟩
  obtain ⟨m, rfl⟩ : ∃ m, rr = m + 1 := ⟨rr - 1, by have := hrr k0 hk0; omega⟩
  rw [Finset.sum_range_succ']
  have h0 : rebinCellRow l 0 = 0 := by simp [rebinCellRow]
  rw [h0, add_zero]
  have hstep : ∀ i, rebinCellRow l (i + 1) =
      if i ∈ l.toFinset then rebinWeight l i else 0 := by
    intro i
    simp [rebinCellRow, List.mem_toFinset]
  simp only [hstep]
  rw [Finset.sum_ite_mem]
  have hsub : l.toFinset ⊆ Finset.range m := by
    intro k hk
    have := hrr k (List.mem_toFinset.mp hk)
    exact Finset.mem_range.mpr (by omega)
  rw [Finset.inter_eq_right.mpr hsub]
  unfold rebinWeight
  rw [← Finset.sum_div, ← Nat.cast_sum, List.sum_toFinset_count_eq_length]
  have hlen : (0 : ℚ) < (l.length : ℚ) := by
    exact_mod_cast List.length_pos.mpr hne
  exact div_self (ne_of_gt hlen)

-- ### Claim theorems

/-- C1: for every camera type and every one of the five strategies, the final
mapping table produced by generate_table is a matrix with exactly
num_pixels + 1 rows, and its column count equals finalWidth * finalHeight
where (finalWidth, finalHeight) is the final (square) output image shape
recorded for that camera type after the padding trim. -/
theorem mappingTable_shape (cam : Cam) (algo : String) (pad s v : Nat)
    (raw : Nat → Nat → Nat → ℚ) (rot : (Nat → Nat → Nat → ℚ) → Nat → Nat → Nat → ℚ)
    (nn : Nat → Nat → Nat) (m : Bool) (halgo : algo ∈ validAlgos) :
    (generateTable cam algo pad s v raw rot nn m).rows = numPixels cam + 1 ∧
    (generateTable cam algo pad s v raw rot nn m).cols =
      imageShapeFinal cam algo pad s * imageShapeFinal cam algo pad s :=
  ⟨generateTable_rows cam algo pad s v raw rot nn m,
   generateTable_cols cam algo pad s v raw rot nn m⟩

/-- C1 witness: the CHEC camera under the oversampling strategy with no external
padding yields a table of 2048 + 1 rows and 48 * 48 columns. -/
theorem mappingTable_shape_w :
    "oversampling" ∈ validAlgos ∧
    ((generateTable Cam.CHEC "oversampling" 0 0 0 (fun _ _ _ => 0) id (fun _ _ => 0)
        false).rows = numPixels Cam.CHEC + 1 ∧
     (generateTable Cam.CHEC "oversampling" 0 0 0 (fun _ _ _ => 0) id (fun _ _ => 0)
        false).cols =
       imageShapeFinal Cam.CHEC "oversampling" 0 0 *
         imageShapeFinal Cam.CHEC "oversampling" 0 0) :=
  ⟨by decide,
   mappingTable_shape Cam.CHEC "oversampling" 0 0 0 (fun _ _ _ => 0) id (fun _ _ => 0)
     false (by decide)⟩

/-- C2 counterexample: map_image performs no shape check, and the channel-vector
against table product is only defined when the input's first dimension equals
the table's row count num_pixels + 1 (row 0 is the null-pixel sink).  For the
CHEC camera (num_pixels = 2048) a pixel array of shape (num_pixels, 1) makes
the product dimension-mismatch and no raster is returned, contradicting the
claim that such an input returns a raster of the camera's output shape. -/
theorem mapImage_numPixels_fails :
    mapImage ⟨2048, 1, fun _ _ => 0⟩
      (generateTable Cam.CHEC "oversampling" 0 0 0 (fun _ _ _ => 0) id (fun _ _ => 0)
        false) 48 48 = none := by
  rw [mapImage, if_neg]
  intro hand
  have h1 := hand.1
  rw [generateTable_rows] at h1
  exact absurd h1 (by decide)

/-- C2 amended: map_image raises no ShapeError (no such check exists); the
underlying matrix product is defined exactly when the pixel array's first
dimension equals the table's row count num_pixels + 1, in which case a raster
of shape (H, W, channels) is returned; for any other first dimension (in
particular num_pixels or num_pixels - 1) the product is undefined, the call
fails with a dimension-mismatch error, and no partial raster is returned. -/
theorem mapImage_contract (cam : Cam) (algo : String) (pad s v : Nat)
    (raw : Nat → Nat → Nat → ℚ) (rot : (Nat → Nat → Nat → ℚ) → Nat → Nat → Nat → ℚ)
    (nn : Nat → Nat → Nat) (m : Bool) (pix : PixMat) (h w : Nat)
    (hw : h * w = (generateTable cam algo pad s v raw rot nn m).cols) :
    (pix.rows = numPixels cam + 1 →
      ∃ ras, mapImage pix (generateTable cam algo pad s v raw rot nn m) h w = some ras ∧
        ras.d1 = h ∧ ras.d2 = w ∧ ras.ch = pix.cols) ∧
    (pix.rows ≠ numPixels cam + 1 →
      mapImage pix (generateTable cam algo pad s v raw rot nn m) h w = none) := by
  constructor
  · intro hr
    refine ⟨⟨h, w, pix.cols, fun y x c =>
      ∑ r ∈ Finset.range (generateTable cam algo pad s v raw rot nn m).rows,
        pix.val r c * (generateTable cam algo pad s v raw rot nn m).val r (y * w + x)⟩,
      ?_, rfl, rfl, rfl⟩
    rw [mapImage, if_pos ⟨by rw [hr, generateTable_rows], hw.symm⟩]
  · intro hr
    rw [mapImage, if_neg]
    intro hand
    exact hr (by rw [← generateTable_rows cam algo pad s v raw rot nn m]; exact hand.1)

/-- C2 witness: for the CHEC oversampling table, a pixel array with 2049 rows
(num_pixels + 1) maps to a 48 x 48 x 1 raster, and one with 2048 rows maps to
no raster at all. -/
theorem mapImage_contract_w :
    (48 * 48 = (generateTable Cam.CHEC "oversampling" 0 0 0 (fun _ _ _ => 0) id
        (fun _ _ => 0) false).cols) ∧
    (∃ ras, mapImage ⟨2049, 1, fun _ _ => 0⟩
        (generateTable Cam.CHEC "oversampling" 0 0 0 (fun _ _ _ => 0) id (fun _ _ => 0)
          false) 48 48 = some ras ∧ ras.d1 = 48 ∧ ras.d2 = 48 ∧ ras.ch = 1) :=
  ⟨by decide,
   (mapImage_contract Cam.CHEC "oversampling" 0 0 0 (fun _ _ _ => 0) id (fun _ _ => 0)
      false ⟨2049, 1, fun _ _ => 0⟩ 48 48 (by decide)).1 (by decide)⟩

/-- C3: constructing an ImageMapper with an unrecognized strategy name (for
example "trilinear") for some requested camera type fails with the raised
configuration error, before a table is generated for that camera type, and no
mapping-table state is produced at all. -/
theorem init_unknown_strategy (cams : List Cam) (algo : Cam → String)
    (mk : Cam → SparseMat) (c : Cam) (hc : c ∈ cams) (hbad : algo c ∉ validAlgos) :
    (∃ e, initTables cams algo mk [] = .error e) ∧
    ∀ tbls, initTables cams algo mk [] ≠ .ok tbls := by
  obtain ⟨e, he⟩ := initTables_err cams algo mk [] c hc hbad
  refine ⟨⟨e, he⟩, fun tbls hok => ?_⟩
  rw [he] at hok
  cases hok

/-- C3 witness: requesting the LSTCam camera with the strategy name "trilinear"
errors out and stores no table. -/
theorem init_unknown_strategy_w :
    (Cam.LSTCam ∈ [Cam.LSTCam]) ∧ ((fun _ : Cam => "trilinear") Cam.LSTCam ∉ validAlgos) ∧
    ((∃ e, initTables [Cam.LSTCam] (fun _ => "trilinear")
        (fun _ => ⟨0, 0, fun _ _ => 0⟩) [] = .error e) ∧
     ∀ tbls, initTables [Cam.LSTCam] (fun _ => "trilinear")
        (fun _ => ⟨0, 0, fun _ _ => 0⟩) [] ≠ .ok tbls) :=
  ⟨by decide, by decide,
   init_unknown_strategy [Cam.LSTCam] (fun _ => "trilinear")
     (fun _ => ⟨0, 0, fun _ _ => 0⟩) Cam.LSTCam (by decide) (by decide)⟩

-- value of a normalized table entry, unfolded once
lemma normalization_val (t : Tab3) (nP : Nat) (r y x : Nat) :
    (normalization t nP).val r y x =
      if 1 ≤ r ∧ r < t.rows ∧ y < t.d1 ∧ x < t.d2 then
        t.val r y x / (tabSum1 t / (nP : ℚ))
      else t.val r y x := rfl

/-- C6: for the rebinning strategy, the raw weights of every native-resolution
output cell sum to exactly 1 across the contributing source rows: each
contributing source point receives its occurrence count among the
grid_size_factor² nearest-source assignments of the cell's sub-grid points,
divided by the total count. -/
theorem rebin_cell_mass (nn : Nat → Nat → Nat) (g yc xc rr : Nat) (hg : 0 < g)
    (hrr : ∀ k ∈ subBlock nn g yc xc, k + 1 < rr) :
    ∑ r ∈ Finset.range rr, rebinCellRow (subBlock nn g yc xc) r = 1 := by
  apply rebinCellRow_total _ _ ?hne hrr
  case hne =>
    have hpos : 0 < g * g := Nat.mul_pos hg hg
    intro hnil
    have hlen : (subBlock nn g yc xc).length = g * g := by simp [subBlock]
    rw [hnil] at hlen
    simp at hlen
    omega

/-- C6 witness: the 2 x 2 sub-block at cell (0,0) of the nearest-index field
(y, x) ↦ 2y + x has weights summing to 1 over the first 10 rows. -/
theorem rebin_cell_mass_w :
    (0 < 2 ∧ ∀ k ∈ subBlock (fun y x => y * 2 + x) 2 0 0, k + 1 < 10) ∧
    ∑ r ∈ Finset.range 10, rebinCellRow (subBlock (fun y x => y * 2 + x) 2 0 0) r = 1 :=
  ⟨⟨by decide, by decide⟩,
   rebin_cell_mass (fun y x => y * 2 + x) 2 0 0 10 (by decide) (by decide)⟩

/-- C7: get_weights computes exactly the spec's closed-form weights: the
three-point branch returns the barycentric weights w1, w2, w3 = 1 - w1 - w2,
the four-point branch (points ordered lower-left, upper-left, lower-right,
upper-right over an axis-aligned rectangle) the bilinear weights
ll, ul, lr, ur; in both cases the weights sum to 1 whenever the denominator is
nonzero. -/
theorem getWeights_spec :
    (∀ x1 y1 x2 y2 x3 y3 x y : ℚ,
      (y2 - y3) * (x1 - x3) + (x3 - x2) * (y1 - y3) ≠ 0 →
      getWeights3 (x1, y1) (x2, y2) (x3, y3) (x, y) = barySpec x1 y1 x2 y2 x3 y3 x y ∧
      (getWeights3 (x1, y1) (x2, y2) (x3, y3) (x, y)).1 +
        (getWeights3 (x1, y1) (x2, y2) (x3, y3) (x, y)).2.1 +
        (getWeights3 (x1, y1) (x2, y2) (x3, y3) (x, y)).2.2 = 1) ∧
    (∀ x1 y1 x2 y2 x y : ℚ, (x2 - x1) * (y2 - y1) ≠ 0 →
      getWeights4 (x1, y1) (x1, y2) (x2, y1) (x2, y2) (x, y) =
        bilinSpec x1 y1 x2 y2 x y ∧
      (getWeights4 (x1, y1) (x1, y2) (x2, y1) (x2, y2) (x, y)).1 +
        (getWeights4 (x1, y1) (x1, y2) (x2, y1) (x2, y2) (x, y)).2.1 +
        (getWeights4 (x1, y1) (x1, y2) (x2, y1) (x2, y2) (x, y)).2.2.1 +
        (getWeights4 (x1, y1) (x1, y2) (x2, y1) (x2, y2) (x, y)).2.2.2 = 1) := by
  constructor
  · intro x1 y1 x2 y2 x3 y3 x y hD
    refine ⟨rfl, ?_⟩
    simp only [getWeights3]
    ring
  · intro x1 y1 x2 y2 x y hA
    refine ⟨rfl, ?_⟩
    simp only [getWeights4]
    rw [div_add_div_same, div_add_div_same, div_add_div_same]
    rw [div_eq_one_iff_eq hA]
    ring

/-- C7 witness: the triangle (0,0), (2,0), (0,2) with target (1,1) and the
rectangle (0,0)-(2,2) with target (1,1), both with nonzero denominators. -/
theorem getWeights_spec_w :
    ((((0 : ℚ) - 2) * (0 - 0) + (0 - 2) * (0 - 2) ≠ 0) ∧
      getWeights3 ((0 : ℚ), 0) (2, 0) (0, 2) (1, 1) = barySpec 0 0 2 0 0 2 1 1) ∧
    ((((2 : ℚ) - 0) * (2 - 0) ≠ 0) ∧
      (getWeights4 ((0 : ℚ), 0) (0, 2) (2, 0) (2, 2) (1, 1)).1 +
        (getWeights4 ((0 : ℚ), 0) (0, 2) (2, 0) (2, 2) (1, 1)).2.1 +
        (getWeights4 ((0 : ℚ), 0) (0, 2) (2, 0) (2, 2) (1, 1)).2.2.1 +
        (getWeights4 ((0 : ℚ), 0) (0, 2) (2, 0) (2, 2) (1, 1)).2.2.2 = 1) :=
  ⟨⟨by norm_num, (getWeights_spec.1 0 0 2 0 0 2 1 1 (by norm_num)).1⟩,
   ⟨by norm_num, (getWeights_spec.2 0 0 2 2 1 1 (by norm_num)).2⟩⟩

/-- C8: with mask interpolation, after the mask step every target cell whose
single nearest source-grid point is a virtual pixel (source index ≥
num_pixels) has weight 0 in every real-pixel row of the mapping table at that
cell's position. -/
theorem mask_zeroes_outside_cells (t : Tab3) (nn : Nat → Nat → Nat)
    (n nP pad i j r : Nat) (hi : i < n) (hj : j < n) (hv : nP ≤ nn j i)
    (hr1 : 1 ≤ r) (hr2 : r < t.rows) :
    (maskInterpolation t nn n nP pad).val r (j + pad) (i + pad) = 0 := by
  simp only [maskInterpolation]
  rw [if_pos ⟨hr1, hr2⟩]
  have hmask : maskVal nn n nP pad (j + pad) (i + pad) = 0 := by
    unfold maskVal
    rw [if_neg]
    intro hcon
    have hlt := hcon.2.2.2.2
    rw [Nat.add_sub_cancel, Nat.add_sub_cancel] at hlt
    omega
  rw [hmask, mul_zero]

/-- C8 witness: a table of 2 rows with all entries 1, a nearest-index field
constantly 9 ≥ num_pixels = 5: after masking, row 1 is 0 at cell (1,1). -/
theorem mask_zeroes_outside_cells_w :
    (0 < 3 ∧ (5 : Nat) ≤ 9 ∧ 1 ≤ 1 ∧ 1 < 2) ∧
    (maskInterpolation ⟨2, 5, 5, fun _ _ _ => 1⟩ (fun _ _ => 9) 3 5 1).val 1 (0 + 1)
      (0 + 1) = 0 :=
  ⟨⟨by decide, by decide, by decide, by decide⟩,
   mask_zeroes_outside_cells ⟨2, 5, 5, fun _ _ _ => 1⟩ (fun _ _ => 9) 3 5 1 0 0 1
     (by decide) (by decide) (by decide) (by decide) (by decide)⟩

/-- C9: normalization is idempotent: for every table whose entries over rows
1.. have a nonzero sum, applying normalization twice produces the same table
as applying it once (the second application's scale factor equals 1). -/
theorem normalization_idem (t : Tab3) (nP : Nat) (h1 : (nP : ℚ) ≠ 0)
    (h2 : tabSum1 t ≠ 0) :
    normalization (normalization t nP) nP = normalization t nP := by
  have hsum : tabSum1 (normalization t nP) = (nP : ℚ) := by
    rw [tabSum1_normalization]
    field_simp
  refine Tab3.ext rfl rfl rfl ?_
  funext r y x
  rw [normalization_val]
  simp only [normalization_rows, normalization_d1, normalization_d2]
  rw [hsum, div_self h1]
  simp only [div_one, ite_self]

-- a 2-row, 1 x 1 table with a single nonzero real-pixel weight
def c9wTab : Tab3 := ⟨2, 1, 1, fun _ _ _ => 5⟩

/-- C9 witness: idempotence instantiated at a concrete table with mass 5 and
num_pixels = 3. -/
theorem normalization_idem_w :
    (((3 : Nat) : ℚ) ≠ 0 ∧ tabSum1 c9wTab ≠ 0) ∧
    normalization (normalization c9wTab 3) 3 = normalization c9wTab 3 :=
  ⟨⟨by norm_num,
    by norm_num [tabSum1, c9wTab, Finset.sum_range_succ, Finset.sum_Ico_succ_top]⟩,
   normalization_idem c9wTab 3 (by norm_num)
     (by norm_num [tabSum1, c9wTab, Finset.sum_range_succ, Finset.sum_Ico_succ_top])⟩

/-- C10: normalization divides the real-pixel rows by sum/num_pixels with no
guard against a zero sum: if every real-pixel entry is zero the factor is 0
and every in-range real-pixel entry becomes the non-finite result of a 0/0
float division — the operation returns a table rather than raising; an
all-finite result is only possible when at least one real-pixel weight is
nonzero. -/
theorem normalization_zero_guard (t : Tab3) (nP : Nat) (hP : 0 < nP)
    (hr : 2 ≤ t.rows) (hd1 : 0 < t.d1) (hd2 : 0 < t.d2) :
    ((∀ r y x, 1 ≤ r → r < t.rows → y < t.d1 → x < t.d2 → t.val r y x = 0) →
      ∀ r y x, 1 ≤ r → r < t.rows → y < t.d1 → x < t.d2 →
        (normalizationF t nP r y x).isFinite = false) ∧
    ((∀ r y x, (normalizationF t nP r y x).isFinite = true) →
      ∃ r y x, 1 ≤ r ∧ r < t.rows ∧ y < t.d1 ∧ x < t.d2 ∧ t.val r y x ≠ 0) := by
  have key : (∀ r y x, 1 ≤ r → r < t.rows → y < t.d1 → x < t.d2 → t.val r y x = 0) →
      ∀ r y x, 1 ≤ r → r < t.rows → y < t.d1 → x < t.d2 →
        (normalizationF t nP r y x).isFinite = false := by
    intro hz r y x h1 h2 h3 h4
    have hsum : tabSum1 t = 0 := by
      unfold tabSum1
      apply Finset.sum_eq_zero; intro a ha
      apply Finset.sum_eq_zero; intro b hb
      apply Finset.sum_eq_zero; intro c hc
      have ha' := Finset.mem_Ico.mp ha
      exact hz a b c ha'.1 ha'.2 (Finset.mem_range.mp hb) (Finset.mem_range.mp hc)
    simp only [normalizationF]
    rw [if_pos ⟨h1, h2, h3, h4⟩, hsum, zero_div, hz r y x h1 h2 h3 h4]
    simp [divF, EV.isFinite]
  refine ⟨key, ?_⟩
  intro hfin
  by_contra hno
  push_neg at hno
  have hfalse := key hno 1 0 0 (le_refl 1) (by omega) hd1 hd2
  have htrue := hfin 1 0 0
  rw [htrue] at hfalse
  cases hfalse

-- an all-zero 2-row, 1 x 1 table
def c10wTab : Tab3 := ⟨2, 1, 1, fun _ _ _ => 0⟩

/-- C10 witness: on an all-zero table with num_pixels = 1, the in-range
real-pixel entry of the float-tracked normalization is non-finite. -/
theorem normalization_zero_guard_w :
    (0 < 1 ∧ 2 ≤ c10wTab.rows ∧ 0 < c10wTab.d1 ∧ 0 < c10wTab.d2) ∧
    (normalizationF c10wTab 1 1 0 0).isFinite = false :=
  ⟨⟨by decide, by decide, by decide, by decide⟩,
   (normalization_zero_guard c10wTab 1 (by decide) (by decide) (by decide)
      (by decide)).1 (fun _ _ _ _ _ _ _ => rfl) 1 0 0 (by decide) (by decide)
     (by decide) (by decide)⟩

-- supporting observation for the oversampling / nearest branch: before the
-- orientation-correction resampling, every column of the row-cut assignment
-- sums to 0 or to the branch's fixed per-pixel weight (the single nearest
-- source row receives the whole weight; virtual-pixel rows are cut)
lemma oversampling_column_mass (nn : Nat → Nat → Nat) (od pad nP : Nat) (w : ℚ)
    (y x : Nat) :
    ∑ r ∈ Finset.range (nP + 1), oversamplingRaw nn od pad w r y x = 0 ∨
    ∑ r ∈ Finset.range (nP + 1), oversamplingRaw nn od pad w r y x = w := by
  by_cases hc : pad ≤ y ∧ pad ≤ x ∧ y < od + pad ∧ x < od + pad
  · by_cases hk : nn (y - pad) (x - pad) + 1 < nP + 1
    · right
      rw [Finset.sum_eq_single (nn (y - pad) (x - pad) + 1)]
      · simp [oversamplingRaw, hc.1, hc.2.1, hc.2.2.1, hc.2.2.2]
      · intro b _ hb
        simp only [oversamplingRaw]
        rw [if_neg]
        intro h
        exact hb h.2.2.2.2
      · intro habs
        exact absurd (Finset.mem_range.mpr hk) habs
    · left
      apply Finset.sum_eq_zero
      intro r hr
      simp only [oversamplingRaw]
      rw [if_neg]
      intro h
      exact hk (h.2.2.2.2 ▸ Finset.mem_range.mp hr)
  · left
    apply Finset.sum_eq_zero
    intro r _
    simp only [oversamplingRaw]
    rw [if_neg]
    intro h
    exact hc ⟨h.1, h.2.1, h.2.2.1, h.2.2.2.1⟩
